import Mathlib

/-
Verification development for the Airtable formula formatter.

The repository has two source modules:
  * src/lib/formatter.ts : a layout lexer (`tokenize`) and pretty printer
    (`formatAirtableFormula`).
  * a display lexer (`highlightAirtableFormula`) used for highlighting.

Strings are modelled as `List Char`.  Each scanning loop of the source is
modelled as a structurally recursive function; loops that advance a cursor
are given explicit fuel equal to the input length (each iteration of every
loop in the source consumes at least one character or one token, so this
fuel is always sufficient, and the functions reduce in the kernel).
-/

namespace AirtableSpec

/-- The JavaScript regular-expression class `\s` (ES2018 WhiteSpace plus
LineTerminator), used by both lexers and by `String.prototype.trim`. -/
def isWs (c : Char) : Bool :=
  decide (c.toNat = 32 ∨ c.toNat = 9 ∨ c.toNat = 10 ∨ c.toNat = 11 ∨ c.toNat = 12 ∨
    c.toNat = 13 ∨ c.toNat = 160 ∨ c.toNat = 5760 ∨ (8192 ≤ c.toNat ∧ c.toNat ≤ 8202) ∨
    c.toNat = 8232 ∨ c.toNat = 8233 ∨ c.toNat = 8239 ∨ c.toNat = 8287 ∨
    c.toNat = 12288 ∨ c.toNat = 65279)

/-- The class `\d` of the source regexes: an ASCII decimal digit. -/
def isDigitCh (c : Char) : Bool :=
  decide (48 ≤ c.toNat ∧ c.toNat ≤ 57)

/-- The class `[a-zA-Z_]` beginning an identifier in both lexers. -/
def isIdentStart (c : Char) : Bool :=
  decide ((97 ≤ c.toNat ∧ c.toNat ≤ 122) ∨ (65 ≤ c.toNat ∧ c.toNat ≤ 90) ∨ c.toNat = 95)

/-- The class `[a-zA-Z0-9_]` continuing an identifier in both lexers. -/
def isIdentCh (c : Char) : Bool :=
  isIdentStart c || isDigitCh c

/-- `String.prototype.toUpperCase` restricted to one character; identifiers in
this grammar are ASCII, on which JavaScript upper-casing is the ASCII map. -/
def upChar (c : Char) : Char :=
  if 97 ≤ c.toNat ∧ c.toNat ≤ 122 then Char.ofNat (c.toNat - 32) else c

/-- Upper-casing of a scanned identifier (`value.toUpperCase()`). -/
def upList (l : List Char) : List Char :=
  l.map upChar

/-- Token kinds of the layout lexer (`TokenType` in src/lib/formatter.ts). -/
inductive TokenType where
  | function
  | field
  | string
  | number
  | operator
  | comma
  | parenOpen
  | parenClose
  | whitespace
  | unknown
deriving DecidableEq, Repr

/-- A layout-lexer token (`Token` in src/lib/formatter.ts); `stop` models the
source field `end` (a reserved word in Lean). -/
structure Token where
  ty : TokenType
  value : List Char
  start : Nat
  stop : Nat
deriving DecidableEq, Repr

/-- The string-literal loop shared by both lexers (src/lib/formatter.ts lines
60-85): consume until the matching `quote`, a backslash escaping the next
character verbatim; an unterminated literal runs to end of input.  Returns the
consumed characters (excluding the opening quote) and the remaining input. -/
def scanString (quote : Char) : List Char → List Char × List Char
  | [] => ([], [])
  | c :: rest =>
    if c = '\\' then
      match rest with
      | [] => ([c], [])
      | d :: rest2 =>
        let p := scanString quote rest2
        (c :: d :: p.1, p.2)
    else if c = quote then ([c], rest)
    else
      let p := scanString quote rest
      (c :: p.1, p.2)

/-- One iteration of the layout lexer's `while` loop at position `i`, looking
at character `c` with remaining input `rest` (src/lib/formatter.ts lines
33-163).  Returns the token pushed (none for skipped whitespace) and the
number of characters consumed (always at least one). -/
def layoutStep (i : Nat) (c : Char) (rest : List Char) : Option Token × Nat :=
  if isWs c then (none, 1)
  else if c = '{' then
    if (rest.drop (rest.takeWhile (fun d => !(d = '}'))).length).head? = some '}' then
      (some ⟨TokenType.field, '{' :: (rest.takeWhile (fun d => !(d = '}')) ++ ['}']), i,
        i + (rest.takeWhile (fun d => !(d = '}'))).length + 2⟩,
       (rest.takeWhile (fun d => !(d = '}'))).length + 2)
    else
      (some ⟨TokenType.field, '{' :: rest.takeWhile (fun d => !(d = '}')), i,
        i + (rest.takeWhile (fun d => !(d = '}'))).length + 1⟩,
       (rest.takeWhile (fun d => !(d = '}'))).length + 1)
  else if c = '"' ∨ c = '\'' then
    (some ⟨TokenType.string, c :: (scanString c rest).1, i,
      i + (scanString c rest).1.length + 1⟩,
     (scanString c rest).1.length + 1)
  else if isDigitCh c then
    (some ⟨TokenType.number, c :: rest.takeWhile (fun d => isDigitCh d || d = '.'), i,
      i + (rest.takeWhile (fun d => isDigitCh d || d = '.')).length + 1⟩,
     (rest.takeWhile (fun d => isDigitCh d || d = '.')).length + 1)
  else if c = '+' ∨ c = '-' ∨ c = '*' ∨ c = '/' ∨ c = '&' then
    (some ⟨TokenType.operator, [c], i, i + 1⟩, 1)
  else if c = '=' ∨ c = '!' ∨ c = '>' ∨ c = '<' then
    if rest.head? = some '=' then
      (some ⟨TokenType.operator, [c, '='], i, i + 2⟩, 2)
    else
      (some ⟨TokenType.operator, [c], i, i + 1⟩, 1)
  else if c = '(' then (some ⟨TokenType.parenOpen, [c], i, i + 1⟩, 1)
  else if c = ')' then (some ⟨TokenType.parenClose, [c], i, i + 1⟩, 1)
  else if c = ',' then (some ⟨TokenType.comma, [c], i, i + 1⟩, 1)
  else if isIdentStart c then
    if (rest.drop (rest.takeWhile isIdentCh).length).head? = some '(' then
      (some ⟨TokenType.function, upList (c :: rest.takeWhile isIdentCh), i,
        i + (c :: rest.takeWhile isIdentCh).length⟩,
       (c :: rest.takeWhile isIdentCh).length)
    else if upList (c :: rest.takeWhile isIdentCh) = ("TRUE").data ∨
        upList (c :: rest.takeWhile isIdentCh) = ("FALSE").data then
      (some ⟨TokenType.number, upList (c :: rest.takeWhile isIdentCh), i,
        i + (c :: rest.takeWhile isIdentCh).length⟩,
       (c :: rest.takeWhile isIdentCh).length)
    else
      (some ⟨TokenType.unknown, c :: rest.takeWhile isIdentCh, i,
        i + (c :: rest.takeWhile isIdentCh).length⟩,
       (c :: rest.takeWhile isIdentCh).length)
  else (some ⟨TokenType.unknown, [c], i, i + 1⟩, 1)

/-- The layout lexer's scanning loop, with explicit fuel (one unit per
iteration; each iteration consumes at least one character, so fuel equal to
the input length is always enough). -/
def tokenizeFuel : Nat → Nat → List Char → List Token
  | 0, _, _ => []
  | _ + 1, _, [] => []
  | fuel + 1, i, c :: rest =>
    match layoutStep i c rest with
    | (some t, n) => t :: tokenizeFuel fuel (i + n) ((c :: rest).drop n)
    | (none, n) => tokenizeFuel fuel (i + n) ((c :: rest).drop n)

/-- `tokenize` of src/lib/formatter.ts. -/
def tokenize (l : List Char) : List Token :=
  tokenizeFuel l.length 0 l

/-- Display-lexer token kinds (the union type in the highlighter module). -/
inductive HType where
  | function
  | field
  | string
  | number
  | operator
  | punctuation
  | text
deriving DecidableEq, Repr

/-- A display-lexer token (`HighlightedToken`). -/
structure HToken where
  text : List Char
  ty : HType
deriving DecidableEq, Repr

/-- One iteration of the display lexer's `while` loop (highlighter module,
lines 18-144): same branch order as the source, with whitespace captured,
parentheses and commas as punctuation, and function detection that skips
whitespace before checking for `(`.  In the non-function identifier branch the
source sets `i = j`, consuming (and discarding from the token) the whitespace
it skipped.  Returns the pushed token and the number of characters consumed. -/
def displayStep (c : Char) (rest : List Char) : HToken × Nat :=
  if c = '{' then
    if (rest.drop (rest.takeWhile (fun d => !(d = '}'))).length).head? = some '}' then
      (⟨'{' :: (rest.takeWhile (fun d => !(d = '}')) ++ ['}']), HType.field⟩,
       (rest.takeWhile (fun d => !(d = '}'))).length + 2)
    else
      (⟨'{' :: rest.takeWhile (fun d => !(d = '}')), HType.field⟩,
       (rest.takeWhile (fun d => !(d = '}'))).length + 1)
  else if c = '"' ∨ c = '\'' then
    (⟨c :: (scanString c rest).1, HType.string⟩, (scanString c rest).1.length + 1)
  else if isDigitCh c then
    (⟨c :: rest.takeWhile (fun d => isDigitCh d || d = '.'), HType.number⟩,
     (rest.takeWhile (fun d => isDigitCh d || d = '.')).length + 1)
  else if c = '+' ∨ c = '-' ∨ c = '*' ∨ c = '/' ∨ c = '&' then
    (⟨[c], HType.operator⟩, 1)
  else if c = '=' ∨ c = '!' ∨ c = '>' ∨ c = '<' then
    if rest.head? = some '=' then (⟨[c, '='], HType.operator⟩, 2)
    else (⟨[c], HType.operator⟩, 1)
  else if c = '(' ∨ c = ')' ∨ c = ',' then (⟨[c], HType.punctuation⟩, 1)
  else if isIdentStart c then
    if ((rest.drop (rest.takeWhile isIdentCh).length).drop
        ((rest.drop (rest.takeWhile isIdentCh).length).takeWhile isWs).length).head?
        = some '(' then
      (⟨upList (c :: rest.takeWhile isIdentCh), HType.function⟩,
       (c :: rest.takeWhile isIdentCh).length)
    else if upList (c :: rest.takeWhile isIdentCh) = ("TRUE").data ∨
        upList (c :: rest.takeWhile isIdentCh) = ("FALSE").data then
      (⟨upList (c :: rest.takeWhile isIdentCh), HType.number⟩,
       (c :: rest.takeWhile isIdentCh).length +
         ((rest.drop (rest.takeWhile isIdentCh).length).takeWhile isWs).length)
    else
      (⟨c :: rest.takeWhile isIdentCh, HType.text⟩,
       (c :: rest.takeWhile isIdentCh).length +
         ((rest.drop (rest.takeWhile isIdentCh).length).takeWhile isWs).length)
  else if isWs c then
    (⟨c :: rest.takeWhile isWs, HType.text⟩, (rest.takeWhile isWs).length + 1)
  else (⟨[c], HType.text⟩, 1)

/-- The display lexer's scanning loop, with explicit fuel. -/
def highlightFuel : Nat → List Char → List HToken
  | 0, _ => []
  | _ + 1, [] => []
  | fuel + 1, c :: rest =>
    match displayStep c rest with
    | (t, n) => t :: highlightFuel fuel ((c :: rest).drop n)

/-- `highlightAirtableFormula` of the highlighter module. -/
def highlightAirtableFormula (l : List Char) : List HToken :=
  highlightFuel l.length l

/-- The external interface name used by the spec for the display lexer. -/
def tokenizeForDisplay (s : String) : List HToken :=
  highlightAirtableFormula s.data

/-- Concatenation of the `text` of every display token, in order. -/
def concatHTexts (ts : List HToken) : List Char :=
  ts.foldr (fun t acc => t.text ++ acc) []

/-- The pretty printer's mutable state: the output built so far, the current
indent counter, and the multi-line flag (src/lib/formatter.ts lines 181-185). -/
structure FmtState where
  result : List Char
  indentLevel : Nat
  isMultiLine : Bool
deriving DecidableEq, Repr

/-- `addIndent()`: one tab character per indent level. -/
def tabs (n : Nat) : List Char :=
  List.replicate n '\t'

/-- The `countParameters` lookahead loop (src/lib/formatter.ts lines 191-202)
with explicit fuel: starting just after an open paren at nesting depth 1,
count the commas seen while the depth stays positive.  The source updates the
depth before testing for a comma; a comma leaves the depth unchanged, so the
test is against the updated depth. -/
def countParamsFuel (tokens : List Token) : Nat → Nat → Nat → Nat → Nat
  | 0, _, _, acc => acc
  | fuel + 1, j, depth, acc =>
    if 0 < depth then
      match tokens.get? j with
      | none => acc
      | some t =>
        countParamsFuel tokens fuel (j + 1)
          (if t.ty = TokenType.parenOpen then depth + 1
           else if t.ty = TokenType.parenClose then depth - 1 else depth)
          (if (if t.ty = TokenType.parenOpen then depth + 1
               else if t.ty = TokenType.parenClose then depth - 1 else depth) = 1 ∧
              t.ty = TokenType.comma
           then acc + 1 else acc)
    else acc

/-- `countParameters(startIndex)`: top-level commas of the call opened by the
paren token at `startIndex`. -/
def countParameters (tokens : List Token) (startIndex : Nat) : Nat :=
  countParamsFuel tokens tokens.length (startIndex + 1) 1 0

/-- Bool test: the optional token kind exists and differs from `x` (models
`tok && tok.type !== x` and `tok?.type !== x` is its negation-friendly twin). -/
def someAndNe (o : Option TokenType) (x : TokenType) : Bool :=
  match o with
  | none => false
  | some t => decide (¬ t = x)

/-- One arm of the emission `switch` (src/lib/formatter.ts lines 208-283),
abstracted over exactly the data the source reads: the token's kind and text,
the kinds of the previous and next tokens, the top-level comma count of the
token (used only in the open-paren arm), and the current state. -/
def emitStepCore (ty : TokenType) (value : List Char) (prevTy nextTy : Option TokenType)
    (cnt : Nat) (st : FmtState) : FmtState :=
  match ty with
  | TokenType.parenOpen =>
    if 0 < cnt then
      ⟨(st.result ++ value) ++ ('\n' :: tabs (st.indentLevel + 1)), st.indentLevel + 1, true⟩
    else ⟨st.result ++ value, st.indentLevel, st.isMultiLine⟩
  | TokenType.parenClose =>
    ⟨(if st.isMultiLine = true ∧ ¬ prevTy = some TokenType.parenOpen then
        st.result ++ ('\n' :: tabs (st.indentLevel - 1))
      else st.result) ++ value,
     st.indentLevel - 1,
     if st.indentLevel - 1 = 0 then false else st.isMultiLine⟩
  | TokenType.comma =>
    ⟨(st.result ++ value) ++
      (if someAndNe nextTy TokenType.parenClose then '\n' :: tabs st.indentLevel else []),
     st.indentLevel, st.isMultiLine⟩
  | TokenType.operator =>
    ⟨((if (match prevTy with
           | none => false
           | some p => decide (¬ p = TokenType.parenOpen ∧ ¬ p = TokenType.comma ∧
               ¬ p = TokenType.operator)) &&
          (match st.result.getLast? with
           | none => true
           | some ch => decide (¬ ch = ' ' ∧ ¬ ch = '\n' ∧ ¬ ch = '\t')) then
        st.result ++ [' ']
      else st.result) ++ value) ++
      (if (match nextTy with
           | none => false
           | some n => decide (¬ n = TokenType.parenClose ∧ ¬ n = TokenType.comma ∧
               ¬ n = TokenType.operator)) then [' '] else []),
     st.indentLevel, st.isMultiLine⟩
  | TokenType.whitespace => st
  | _ => ⟨st.result ++ value, st.indentLevel, st.isMultiLine⟩

/-- One iteration of the emission loop at token index `i`: fetch the token and
its neighbours and dispatch on the kind. -/
def emitStep (tokens : List Token) (i : Nat) (st : FmtState) : FmtState :=
  match tokens.get? i with
  | none => st
  | some t =>
    emitStepCore t.ty t.value
      ((if i = 0 then none else tokens.get? (i - 1)).map Token.ty)
      ((tokens.get? (i + 1)).map Token.ty)
      (countParameters tokens i) st

/-- The emission `while` loop with explicit fuel (one unit per token). -/
def emitFuel (tokens : List Token) : Nat → Nat → FmtState → FmtState
  | 0, _, st => st
  | fuel + 1, i, st =>
    if i < tokens.length then emitFuel tokens fuel (i + 1) (emitStep tokens i st)
    else st

/-- The assembled text before the cleanup pass: run the emission loop from
index 0 with empty output, indent 0 and the multi-line flag cleared. -/
def emit (tokens : List Token) : List Char :=
  (emitFuel tokens tokens.length 0 ⟨[], 0, false⟩).result

/-- `line.replace(/[ ]+$/, '')`: strip trailing space characters (not tabs). -/
def stripTrailingSpaces (l : List Char) : List Char :=
  (l.reverse.dropWhile (fun c => c = ' ')).reverse

/-- The class `[ \t]` excluded by the flanks of the collapse regex. -/
def spacetab (c : Char) : Bool :=
  decide (c = ' ' ∨ c = '\t')

/-- Backtracking of the greedy `\s{2,}` of `/([^ \t])\s{2,}([^ \t])/`: given
the input after the left flank, try run lengths `k, k-1, ..., 2` and return
the first (largest) length whose following character exists and is outside
`[ \t]`, together with that character. -/
def findBack (rest : List Char) : Nat → Option (Nat × Char)
  | 0 => none
  | 1 => none
  | k + 2 =>
    match rest.get? (k + 2) with
    | some c2 => if spacetab c2 then findBack rest (k + 1) else some (k + 2, c2)
    | none => findBack rest (k + 1)

/-- Attempt to match `\s{2,}([^ \t])` at the start of `rest` (the part after a
left flank already known to be outside `[ \t]`): the whitespace run must have
length at least two and be followed by a character outside `[ \t]`. -/
def tryMatch (rest : List Char) : Option (Nat × Char) :=
  if (rest.takeWhile isWs).length < 2 then none
  else findBack rest (rest.takeWhile isWs).length

/-- `line.replace(/([^ \t])\s{2,}([^ \t])/g, '$1 $2')` with JavaScript global
semantics: scan left to right, and after a successful match continue after its
last character (the right flank), so consumed flanks cannot start a new match. -/
def collapseLineFuel : Nat → List Char → List Char
  | 0, l => l
  | _ + 1, [] => []
  | fuel + 1, c :: rest =>
    if spacetab c then c :: collapseLineFuel fuel rest
    else
      match tryMatch rest with
      | some (k, c2) => c :: ' ' :: c2 :: collapseLineFuel fuel (rest.drop (k + 1))
      | none => c :: collapseLineFuel fuel rest

/-- The per-line interior collapse of the cleanup pass. -/
def collapseLine (l : List Char) : List Char :=
  collapseLineFuel l.length l

/-- For the whitespace run following a newline: the number of characters up to
and including the last `\n` of the run (0 when the run has no newline).  This
is where a `/\n\s*\n+/` match ends inside the run. -/
def nlSkip (run : List Char) : Nat :=
  run.length - (run.reverse.takeWhile (fun c => !(c = '\n'))).length

/-- `.replace(/\n\s*\n+/g, '\n')` with JavaScript global semantics: at a
newline whose following whitespace run contains another newline, the match
extends through the last newline of the run and is replaced by one newline. -/
def collapseNlFuel : Nat → List Char → List Char
  | 0, l => l
  | _ + 1, [] => []
  | fuel + 1, c :: rest =>
    if c = '\n' then
      if nlSkip (rest.takeWhile isWs) = 0 then c :: collapseNlFuel fuel rest
      else '\n' :: collapseNlFuel fuel (rest.drop (nlSkip (rest.takeWhile isWs)))
    else c :: collapseNlFuel fuel rest

/-- The blank-line collapse of the cleanup pass. -/
def collapseNewlines (l : List Char) : List Char :=
  collapseNlFuel l.length l

/-- `result.split('\n')` (JavaScript split: n newlines give n+1 lines). -/
def splitOnNl : List Char → List (List Char)
  | [] => [[]]
  | c :: rest =>
    if c = '\n' then [] :: splitOnNl rest
    else
      match splitOnNl rest with
      | [] => [[c]]
      | l :: ls => (c :: l) :: ls

/-- `lines.join('\n')`. -/
def joinNl : List (List Char) → List Char
  | [] => []
  | [l] => l
  | l :: ls => l ++ '\n' :: joinNl ls

/-- `.replace(/^\s+|\s+$/g, '')`: trim leading and trailing whitespace (also
the semantics of `String.prototype.trim` on the same character class). -/
def trimBoth (l : List Char) : List Char :=
  ((l.dropWhile isWs).reverse.dropWhile isWs).reverse

/-- The cleanup pass of `formatAirtableFormula` (src/lib/formatter.ts lines
288-301): per line strip trailing spaces and collapse interior whitespace
runs, rejoin, collapse blank lines, trim the whole result. -/
def cleanup (r : List Char) : List Char :=
  trimBoth (collapseNewlines (joinNl
    ((splitOnNl r).map (fun l => collapseLine (stripTrailingSpaces l)))))

/-- `formatAirtableFormula` of src/lib/formatter.ts: empty for blank input,
the raw formula when the lexer returns no tokens, otherwise the emission loop
followed by the cleanup pass. -/
def formatAirtableFormula (formula : List Char) : List Char :=
  if trimBoth formula = [] then []
  else if tokenize formula = [] then formula
  else cleanup (emit (tokenize formula))

/-- `formatAirtableFormula` on `String`, for readable statements. -/
def fmtStr (s : String) : String :=
  ⟨formatAirtableFormula s.data⟩

/-- The part of a layout token the emission pass reads: kind and text (the
span fields are used only by the argument-counting lookahead, which reads only
kinds). -/
def eraseTok (t : Token) : TokenType × List Char :=
  (t.ty, t.value)

/-- Modelled from the spec: "balanced parentheses" of a formula, read off its
layout-token stream — the running paren depth never goes negative and ends at
zero. -/
def parenDepthOk : List Token → Nat → Bool
  | [], d => decide (d = 0)
  | t :: rest, d =>
    if t.ty = TokenType.parenOpen then parenDepthOk rest (d + 1)
    else if t.ty = TokenType.parenClose then
      if d = 0 then false else parenDepthOk rest (d - 1)
    else parenDepthOk rest d

/-- Modelled from the spec: balanced parentheses of the token stream. -/
def specBalanced (ts : List Token) : Bool :=
  parenDepthOk ts 0

/-- Modelled from the spec: a string or field literal token is properly
terminated (a string starts and ends with the same quote, a field starts with
an open brace and ends with a close brace). -/
def litOk (t : Token) : Bool :=
  match t.ty with
  | TokenType.string =>
    decide (2 ≤ t.value.length) &&
      (match t.value.head?, t.value.getLast? with
       | some h, some l => decide ((h = '"' ∨ h = '\'') ∧ l = h)
       | _, _ => false)
  | TokenType.field =>
    decide (2 ≤ t.value.length) &&
      (match t.value.head?, t.value.getLast? with
       | some h, some l => decide (h = '{' ∧ l = '}')
       | _, _ => false)
  | _ => true

/-- Modelled from the spec: all literals of the token stream are terminated. -/
def specLiteralsTerminated (ts : List Token) : Bool :=
  ts.all litOk

/-! ### Helper lemmas -/

lemma identStart_excl {c : Char} (h : isIdentStart c = true) :
    isWs c = false ∧ isDigitCh c = false ∧ ¬ c = '{' ∧ ¬ c = '"' ∧ ¬ c = '\'' ∧
    ¬ c = '+' ∧ ¬ c = '-' ∧ ¬ c = '*' ∧ ¬ c = '/' ∧ ¬ c = '&' ∧
    ¬ c = '=' ∧ ¬ c = '!' ∧ ¬ c = '>' ∧ ¬ c = '<' ∧
    ¬ c = '(' ∧ ¬ c = ')' ∧ ¬ c = ',' := by
  have h0 := h
  simp only [isIdentStart, decide_eq_true_eq] at h0
  refine ⟨?_, ?_, ?_, ?_, ?_, ?_, ?_, ?_, ?_, ?_, ?_, ?_, ?_, ?_, ?_, ?_, ?_⟩
  · simp only [isWs, decide_eq_false_iff_not]; omega
  · simp only [isDigitCh, decide_eq_false_iff_not]; omega
  all_goals exact fun hc => absurd (hc ▸ h) (by decide)

lemma layoutStep_ws {i : Nat} {c : Char} {rest : List Char} (h : isWs c = true) :
    layoutStep i c rest = (none, 1) := by
  simp [layoutStep, h]

lemma layoutStep_some {i : Nat} {c : Char} {rest : List Char} (h : isWs c = false) :
    (layoutStep i c rest).1.isSome = true := by
  unfold layoutStep
  rw [h]
  rw [if_neg (by simp)]
  by_cases h1 : c = '{'
  · rw [if_pos h1]; split <;> rfl
  · rw [if_neg h1]
    by_cases h2 : c = '"' ∨ c = '\''
    · rw [if_pos h2]; rfl
    · rw [if_neg h2]
      by_cases h3 : isDigitCh c = true
      · rw [if_pos h3]; rfl
      · rw [if_neg h3]
        by_cases h4 : c = '+' ∨ c = '-' ∨ c = '*' ∨ c = '/' ∨ c = '&'
        · rw [if_pos h4]; rfl
        · rw [if_neg h4]
          by_cases h5 : c = '=' ∨ c = '!' ∨ c = '>' ∨ c = '<'
          · rw [if_pos h5]; split <;> rfl
          · rw [if_neg h5]
            by_cases h6 : c = '('
            · rw [if_pos h6]; rfl
            · rw [if_neg h6]
              by_cases h7 : c = ')'
              · rw [if_pos h7]; rfl
              · rw [if_neg h7]
                by_cases h8 : c = ','
                · rw [if_pos h8]; rfl
                · rw [if_neg h8]
                  by_cases h9 : isIdentStart c = true
                  · rw [if_pos h9]
                    repeat' split
                    all_goals rfl
                  · rw [if_neg h9]; rfl

lemma tokenizeFuel_allWs : ∀ (fuel i : Nat) (l : List Char),
    (∀ c ∈ l, isWs c = true) → tokenizeFuel fuel i l = [] := by
  intro fuel
  induction fuel with
  | zero => intro i l _; rfl
  | succ fuel ih =>
    intro i l hall
    match l with
    | [] => rfl
    | c :: rest =>
      have hc : isWs c = true := hall c (List.mem_cons_self c rest)
      simp only [tokenizeFuel, layoutStep_ws hc]
      exact ih (i + 1) rest (fun d hd => hall d (List.mem_cons_of_mem c hd))

lemma tokenizeFuel_ne_nil : ∀ (l : List Char) (i : Nat),
    (∃ c ∈ l, isWs c = false) → tokenizeFuel l.length i l ≠ [] := by
  intro l
  induction l with
  | nil => intro i h; obtain ⟨c, hc, _⟩ := h; exact absurd hc (List.not_mem_nil c)
  | cons c rest ih =>
    intro i h
    by_cases hws : isWs c = true
    · obtain ⟨d, hd, hdw⟩ := h
      have hdr : d ∈ rest := by
        rcases List.mem_cons.mp hd with h1 | h1
        · rw [h1] at hdw; rw [hws] at hdw; exact absurd hdw (by simp)
        · exact h1
      simp only [List.length_cons, tokenizeFuel, layoutStep_ws hws, List.drop_succ_cons,
        List.drop_zero]
      exact ih (i + 1) ⟨d, hdr, hdw⟩
    · have hsome := @layoutStep_some i c rest (eq_false_of_ne_true hws)
      simp only [List.length_cons, tokenizeFuel]
      cases hstep : layoutStep i c rest with
      | mk tok n =>
        cases tok with
        | none => rw [hstep] at hsome; simp at hsome
        | some t => simp

lemma trimBoth_of_allWs {l : List Char} (h : ∀ c ∈ l, isWs c = true) :
    trimBoth l = [] := by
  have h1 : l.dropWhile isWs = [] := by
    induction l with
    | nil => rfl
    | cons c rest ih =>
      rw [List.dropWhile_cons_of_pos (h c (List.mem_cons_self c rest))]
      exact ih (fun d hd => h d (List.mem_cons_of_mem c hd))
  simp [trimBoth, h1]

lemma allWs_of_trimBoth_nil {l : List Char} (h : trimBoth l = []) :
    ∀ c ∈ l, isWs c = true := by
  intro c hc
  by_contra hcw
  have hcw' : isWs c = false := eq_false_of_ne_true hcw
  unfold trimBoth at h
  have h2 : (l.dropWhile isWs).reverse.dropWhile isWs = [] := by
    cases he : (l.dropWhile isWs).reverse.dropWhile isWs with
    | nil => rfl
    | cons x xs => rw [he] at h; simp at h
  have h3 : ∀ d ∈ (l.dropWhile isWs).reverse, isWs d = true := by
    intro d hd
    have := List.dropWhile_eq_nil_iff.mp h2
    simpa using this d (by simpa using hd)
  have h4 : ∀ d ∈ l.dropWhile isWs, isWs d = true := by
    intro d hd; exact h3 d (by simpa using hd)
  -- every element of l is whitespace: the takeWhile part is by definition,
  -- the dropWhile part by h4
  have h5 : c ∈ l.takeWhile isWs ++ l.dropWhile isWs := by
    rw [List.takeWhile_append_dropWhile]; exact hc
  rcases List.mem_append.mp h5 with h6 | h6
  · exact hcw (List.mem_takeWhile_imp h6)
  · exact hcw (h4 c h6)

lemma exists_nonWs_of_trimBoth_ne_nil {l : List Char} (h : ¬ trimBoth l = []) :
    ∃ c ∈ l, isWs c = false := by
  by_contra hall
  push_neg at hall
  exact h (trimBoth_of_allWs (fun c hc => by
    have := hall c hc
    cases hcc : isWs c with
    | false => exact absurd hcc this
    | true => rfl))

lemma tokenize_ne_nil {l : List Char} (h : ∃ c ∈ l, isWs c = false) :
    ¬ tokenize l = [] :=
  tokenizeFuel_ne_nil l 0 h

lemma tokenize_allWs {l : List Char} (h : ∀ c ∈ l, isWs c = true) :
    tokenize l = [] :=
  tokenizeFuel_allWs l.length 0 l h

lemma map_erase_length {ts1 ts2 : List Token}
    (h : ts1.map eraseTok = ts2.map eraseTok) : ts1.length = ts2.length := by
  have := congrArg List.length h
  simpa using this

lemma map_erase_get? {ts1 ts2 : List Token} (h : ts1.map eraseTok = ts2.map eraseTok)
    (n : Nat) : (ts1.get? n).map eraseTok = (ts2.get? n).map eraseTok := by
  rw [← List.get?_map, ← List.get?_map, h]

lemma map_ty_of_map_erase {o1 o2 : Option Token}
    (h : o1.map eraseTok = o2.map eraseTok) : o1.map Token.ty = o2.map Token.ty := by
  cases o1 <;> cases o2 <;> simp_all [eraseTok]

lemma countParamsFuel_congr : ∀ (fuel : Nat) {ts1 ts2 : List Token},
    ts1.map eraseTok = ts2.map eraseTok → ∀ (j depth acc : Nat),
    countParamsFuel ts1 fuel j depth acc = countParamsFuel ts2 fuel j depth acc := by
  intro fuel
  induction fuel with
  | zero => intros; rfl
  | succ fuel ih =>
    intro ts1 ts2 h j depth acc
    simp only [countParamsFuel]
    by_cases hd : 0 < depth
    · rw [if_pos hd, if_pos hd]
      have hg := map_erase_get? h j
      cases h1 : ts1.get? j with
      | none =>
        cases h2 : ts2.get? j with
        | none => rfl
        | some t2 => rw [h1, h2] at hg; simp at hg
      | some t1 =>
        cases h2 : ts2.get? j with
        | none => rw [h1, h2] at hg; simp at hg
        | some t2 =>
          rw [h1, h2] at hg
          simp only [Option.map_some'] at hg
          obtain ⟨hty, hval⟩ : t1.ty = t2.ty ∧ t1.value = t2.value := by
            simpa [eraseTok, Prod.ext_iff] using hg
          dsimp only
          rw [hty]
          exact ih h (j + 1) _ _
    · rw [if_neg hd, if_neg hd]

lemma countParameters_congr {ts1 ts2 : List Token}
    (h : ts1.map eraseTok = ts2.map eraseTok) (i : Nat) :
    countParameters ts1 i = countParameters ts2 i := by
  unfold countParameters
  rw [map_erase_length h]
  exact countParamsFuel_congr ts2.length h (i + 1) 1 0

lemma emitStep_congr {ts1 ts2 : List Token} (h : ts1.map eraseTok = ts2.map eraseTok)
    (i : Nat) (st : FmtState) : emitStep ts1 i st = emitStep ts2 i st := by
  unfold emitStep
  have hg := map_erase_get? h i
  cases h1 : ts1.get? i with
  | none =>
    cases h2 : ts2.get? i with
    | none => rfl
    | some t2 => rw [h1, h2] at hg; simp at hg
  | some t1 =>
    cases h2 : ts2.get? i with
    | none => rw [h1, h2] at hg; simp at hg
    | some t2 =>
      rw [h1, h2] at hg
      simp only [Option.map_some'] at hg
      obtain ⟨hty, hval⟩ : t1.ty = t2.ty ∧ t1.value = t2.value := by
        simpa [eraseTok, Prod.ext_iff] using hg
      dsimp only
      have hprev : (if i = 0 then none else ts1.get? (i - 1)).map Token.ty
          = (if i = 0 then none else ts2.get? (i - 1)).map Token.ty := by
        by_cases h0 : i = 0
        · rw [if_pos h0, if_pos h0]
        · rw [if_neg h0, if_neg h0]
          exact map_ty_of_map_erase (map_erase_get? h (i - 1))
      have hnext : (ts1.get? (i + 1)).map Token.ty = (ts2.get? (i + 1)).map Token.ty :=
        map_ty_of_map_erase (map_erase_get? h (i + 1))
      rw [hty, hval, hprev, hnext, countParameters_congr h i]

lemma emitFuel_congr : ∀ (fuel : Nat) {ts1 ts2 : List Token},
    ts1.map eraseTok = ts2.map eraseTok → ∀ (i : Nat) (st : FmtState),
    emitFuel ts1 fuel i st = emitFuel ts2 fuel i st := by
  intro fuel
  induction fuel with
  | zero => intros; rfl
  | succ fuel ih =>
    intro ts1 ts2 h i st
    simp only [emitFuel]
    rw [map_erase_length h]
    by_cases hi : i < ts2.length
    · rw [if_pos hi, if_pos hi, emitStep_congr h i st]
      exact ih h (i + 1) _
    · rw [if_neg hi, if_neg hi]

lemma emit_congr {ts1 ts2 : List Token} (h : ts1.map eraseTok = ts2.map eraseTok) :
    emit ts1 = emit ts2 := by
  unfold emit
  rw [map_erase_length h, emitFuel_congr ts2.length h 0 ⟨[], 0, false⟩]

lemma format_eq_cleanup {l : List Char} (h1 : ¬ trimBoth l = [])
    (h2 : ¬ tokenize l = []) :
    formatAirtableFormula l = cleanup (emit (tokenize l)) := by
  unfold formatAirtableFormula
  rw [if_neg h1, if_neg h2]

/-! ### Claim theorems -/

/-- Claim C1.  The claim states that concatenating the `text` of every token
of `tokenizeForDisplay` reproduces the input exactly, for every input.  The
code violates this: in the non-function identifier branch the display lexer
sets `i = j`, silently discarding the whitespace it skipped while probing for
a call parenthesis.  On the input `"x y"` the produced tokens are `x` and `y`
and their concatenation is `"xy"`, not `"x y"`. -/
theorem C1_display_lexer_drops_whitespace :
    concatHTexts (highlightAirtableFormula (("x y").data)) = ("xy").data ∧
    ¬ ("xy").data = ("x y").data := by
  decide

/-- Claim C3.  `format` is total by construction in this embedding (every
function is a total Lean function); on the unterminated input
`CONCATENATE("abc)` the lexer produces the string token `"abc)` running from
the opening quote to end of input, and `format` returns the input unchanged
rather than failing. -/
theorem C3_unterminated_literal_safety :
    tokenize (("CONCATENATE(\"abc)").data) =
      [⟨TokenType.function, ("CONCATENATE").data, 0, 11⟩,
       ⟨TokenType.parenOpen, ("(").data, 11, 12⟩,
       ⟨TokenType.string, ("\"abc)").data, 12, 17⟩] ∧
    fmtStr ("CONCATENATE(\"abc)") = "CONCATENATE(\"abc)" := by
  decide

/-- Claim C4.  On `SUM (x)` the layout lexer emits a plain-text (unknown)
token `SUM` followed by a separate open-paren token, because its function
check requires the parenthesis to follow the identifier immediately; the
display lexer skips the whitespace before the check and still classifies
`SUM` as a function. -/
theorem C4_function_detection_whitespace :
    tokenize (("SUM (x)").data) =
      [⟨TokenType.unknown, ("SUM").data, 0, 3⟩,
       ⟨TokenType.parenOpen, ("(").data, 4, 5⟩,
       ⟨TokenType.unknown, ("x").data, 5, 6⟩,
       ⟨TokenType.parenClose, (")").data, 6, 7⟩] ∧
    highlightAirtableFormula (("SUM (x)").data) =
      [⟨("SUM").data, HType.function⟩, ⟨(" ").data, HType.text⟩,
       ⟨("(").data, HType.punctuation⟩, ⟨("x").data, HType.text⟩,
       ⟨(")").data, HType.punctuation⟩] := by
  decide

/-- Claim C5.  `format("if({Status}=\"Active\",1,0)")` produces exactly the
upper-cased, tab-indented, operator-padded multi-line rendering stated by the
spec, with the closing parenthesis on its own unindented line. -/
theorem C5_function_uppercasing_example :
    fmtStr ("if({Status}=\"Active\",1,0)") =
      "IF(\n\t{Status} = \"Active\",\n\t1,\n\t0\n)" := by
  decide

/-- Claim C9.  Formatting any whitespace-only input (in particular the empty
string and three spaces) yields the empty string, and the display lexer maps
the empty input to the empty token sequence. -/
theorem C9_empty_input :
    (∀ l : List Char, (∀ c ∈ l, isWs c = true) → formatAirtableFormula l = []) ∧
    fmtStr ("") = "" ∧ fmtStr ("   ") = "" ∧ tokenizeForDisplay ("") = [] := by
  refine ⟨?_, by decide, by decide, by decide⟩
  intro l h
  unfold formatAirtableFormula
  rw [if_pos (trimBoth_of_allWs h)]

/-- Witness for C9 at the concrete whitespace-only input of a space, a tab
and a space. -/
theorem C9_empty_input_witness :
    formatAirtableFormula ((" \t ").data) = [] :=
  C9_empty_input.1 ((" \t ").data) (by decide)

/-- Claim C10.  Any input containing a non-whitespace character tokenizes to
a non-empty token list, so the branch of `formatAirtableFormula` returning
the raw formula on an empty token list is unreachable: the result is either
empty (blank input) or assembled from the tokens and cleaned up. -/
theorem C10_tokenize_nonempty :
    (∀ l : List Char, (∃ c ∈ l, isWs c = false) → ¬ tokenize l = []) ∧
    (∀ l : List Char, formatAirtableFormula l = [] ∨
      formatAirtableFormula l = cleanup (emit (tokenize l))) := by
  constructor
  · intro l h
    exact tokenize_ne_nil h
  · intro l
    by_cases h1 : trimBoth l = []
    · left
      unfold formatAirtableFormula
      rw [if_pos h1]
    · right
      exact format_eq_cleanup h1 (tokenize_ne_nil (exists_nonWs_of_trimBoth_ne_nil h1))

/-- Witness for C10 at the concrete one-character input `a`. -/
theorem C10_tokenize_nonempty_witness :
    ¬ tokenize (("a").data) = [] :=
  C10_tokenize_nonempty.1 (("a").data) (by decide)

/-- Counterexample to claim C2 as stated.  The input `"a  b  c"` is a single
properly terminated string literal with no parentheses, so it is balanced in
the sense of the spec, yet `format(format(s))` differs from `format(s)`: the
cleanup regex collapses the first double space of the literal and, because its
global scan resumes after the consumed right flank `b`, leaves the second
double space, which the next `format` then collapses. -/
theorem C2_format_not_idempotent :
    specBalanced (tokenize (("\"a  b  c\"").data)) = true ∧
    specLiteralsTerminated (tokenize (("\"a  b  c\"").data)) = true ∧
    ¬ formatAirtableFormula (formatAirtableFormula (("\"a  b  c\"").data)) =
        formatAirtableFormula (("\"a  b  c\"").data) := by
  decide

/-- Claim C2, amended.  Idempotence does hold for every non-blank input whose
formatted output re-tokenizes to the same token kinds and texts (the span
offsets, which the emission pass never reads, may differ): the second format
then assembles and cleans exactly the same token stream.  It fails in general
because the cleanup pass can rewrite the interior of string or field literals
(see the counterexample). -/
theorem C2_format_idempotent_token_stable :
    ∀ s : List Char, ¬ trimBoth s = [] → ¬ tokenize s = [] →
      (tokenize (formatAirtableFormula s)).map eraseTok = (tokenize s).map eraseTok →
      formatAirtableFormula (formatAirtableFormula s) = formatAirtableFormula s := by
  intro s h1 h2 h3
  have hfs : formatAirtableFormula s = cleanup (emit (tokenize s)) := format_eq_cleanup h1 h2
  have h4 : ¬ tokenize (formatAirtableFormula s) = [] := by
    intro hnil
    rw [hnil] at h3
    exact h2 (List.map_eq_nil.mp h3.symm)
  have h5 : ¬ trimBoth (formatAirtableFormula s) = [] := by
    intro htr
    exact h4 (tokenize_allWs (allWs_of_trimBoth_nil htr))
  rw [format_eq_cleanup h5 h4, emit_congr h3, ← hfs]

/-- Witness for the amended C2 at `IF(a,b)`, whose formatted output
`IF(\n\ta,\n\tb\n)` re-tokenizes to the same kinds and texts. -/
theorem C2_format_idempotent_token_stable_witness :
    formatAirtableFormula (formatAirtableFormula (("IF(a,b)").data)) =
      formatAirtableFormula (("IF(a,b)").data) :=
  C2_format_idempotent_token_stable (("IF(a,b)").data) (by decide) (by decide) (by decide)

/-- Claim C6.  An open paren whose call has no top-level comma appends only
`(` and leaves the indent counter and multi-line flag unchanged; one with at
least one top-level comma appends `(`, a newline and the new indent, and
increments the counter and sets the flag.  In particular `SUM({A})` is left
on one line. -/
theorem C6_break_iff_top_level_comma :
    (∀ (tokens : List Token) (i : Nat) (st : FmtState) (t : Token),
      tokens.get? i = some t → t.ty = TokenType.parenOpen →
      ((countParameters tokens i = 0 →
          emitStep tokens i st = ⟨st.result ++ t.value, st.indentLevel, st.isMultiLine⟩) ∧
       (0 < countParameters tokens i →
          emitStep tokens i st =
            ⟨(st.result ++ t.value) ++ ('\n' :: tabs (st.indentLevel + 1)),
             st.indentLevel + 1, true⟩))) ∧
    fmtStr ("SUM({A})") = "SUM({A})" := by
  constructor
  · intro tokens i st t hget hty
    constructor
    · intro h0
      unfold emitStep
      rw [hget]
      dsimp only
      rw [hty]
      simp only [emitStepCore]
      rw [h0, if_neg (lt_irrefl 0)]
    · intro hpos
      unfold emitStep
      rw [hget]
      dsimp only
      rw [hty]
      simp only [emitStepCore]
      rw [if_pos hpos]
  · decide

/-- Witness for C6: the paren of `SUM({A})` (zero top-level commas) emits
inline, the paren of `IF(a,b)` (one top-level comma) breaks the line. -/
theorem C6_break_iff_top_level_comma_witness :
    emitStep (tokenize (("SUM({A})").data)) 1 ⟨("SUM").data, 0, false⟩ =
      ⟨("SUM").data ++ ("(").data, 0, false⟩ ∧
    emitStep (tokenize (("IF(a,b)").data)) 1 ⟨("IF").data, 0, false⟩ =
      ⟨(("IF").data ++ ("(").data) ++ ('\n' :: tabs 1), 1, true⟩ := by
  constructor
  · exact (C6_break_iff_top_level_comma.1 (tokenize (("SUM({A})").data)) 1
      ⟨("SUM").data, 0, false⟩ ⟨TokenType.parenOpen, ("(").data, 3, 4⟩
      (by decide) rfl).1 (by decide)
  · exact (C6_break_iff_top_level_comma.1 (tokenize (("IF(a,b)").data)) 1
      ⟨("IF").data, 0, false⟩ ⟨TokenType.parenOpen, ("(").data, 2, 3⟩
      (by decide) rfl).2 (by decide)

/-- Claim C7.  In both lexers, whenever the scanner takes the identifier
branch (any position `i`, any remaining input) and the identifier is not
classified as a function, an identifier whose upper-casing is `TRUE` or
`FALSE` is emitted with the upper-cased text and the number kind.  The layout
lexer's function check looks at the character right after the identifier; the
display lexer's skips whitespace first (and consumes that whitespace). -/
theorem C7_boolean_normalization :
    ∀ (i : Nat) (c : Char) (rest : List Char),
      isIdentStart c = true →
      (upList (c :: rest.takeWhile isIdentCh) = ("TRUE").data ∨
       upList (c :: rest.takeWhile isIdentCh) = ("FALSE").data) →
      (¬ (rest.drop (rest.takeWhile isIdentCh).length).head? = some '(' →
        layoutStep i c rest =
          (some ⟨TokenType.number, upList (c :: rest.takeWhile isIdentCh), i,
            i + (c :: rest.takeWhile isIdentCh).length⟩,
           (c :: rest.takeWhile isIdentCh).length)) ∧
      (¬ ((rest.drop (rest.takeWhile isIdentCh).length).drop
            ((rest.drop (rest.takeWhile isIdentCh).length).takeWhile isWs).length).head?
          = some '(' →
        displayStep c rest =
          (⟨upList (c :: rest.takeWhile isIdentCh), HType.number⟩,
           (c :: rest.takeWhile isIdentCh).length +
             ((rest.drop (rest.takeWhile isIdentCh).length).takeWhile isWs).length)) := by
  intro i c rest hstart hbool
  obtain ⟨hws, hdig, hbrace, hdq, hsq, hplus, hminus, hstar, hslash, hamp,
    heqc, hbang, hgt, hlt, hop, hcp, hcm⟩ := identStart_excl hstart
  constructor
  · intro hnp
    unfold layoutStep
    rw [hws]
    rw [if_neg (by simp)]
    rw [if_neg hbrace]
    rw [if_neg (by tauto : ¬ (c = '"' ∨ c = '\''))]
    rw [if_neg (by simp [hdig] : ¬ isDigitCh c = true)]
    rw [if_neg (by tauto : ¬ (c = '+' ∨ c = '-' ∨ c = '*' ∨ c = '/' ∨ c = '&'))]
    rw [if_neg (by tauto : ¬ (c = '=' ∨ c = '!' ∨ c = '>' ∨ c = '<'))]
    rw [if_neg hop, if_neg hcp, if_neg hcm]
    rw [if_pos hstart]
    rw [if_neg hnp]
    rw [if_pos hbool]
  · intro hnp
    unfold displayStep
    rw [if_neg hbrace]
    rw [if_neg (by tauto : ¬ (c = '"' ∨ c = '\''))]
    rw [if_neg (by simp [hdig] : ¬ isDigitCh c = true)]
    rw [if_neg (by tauto : ¬ (c = '+' ∨ c = '-' ∨ c = '*' ∨ c = '/' ∨ c = '&'))]
    rw [if_neg (by tauto : ¬ (c = '=' ∨ c = '!' ∨ c = '>' ∨ c = '<'))]
    rw [if_neg (by tauto : ¬ (c = '(' ∨ c = ')' ∨ c = ','))]
    rw [if_pos hstart]
    rw [if_neg hnp]
    rw [if_pos hbool]

/-- Witness for C7 at the input `true` (identifier `true` at position 0, not
followed by a parenthesis): both lexers emit `TRUE` as a number-kind token. -/
theorem C7_boolean_normalization_witness :
    layoutStep 0 't' (("rue").data) =
      (some ⟨TokenType.number, ("TRUE").data, 0, 4⟩, 4) ∧
    displayStep 't' (("rue").data) = (⟨("TRUE").data, HType.number⟩, 4) := by
  have h := C7_boolean_normalization 0 't' (("rue").data) (by decide) (by decide)
  exact ⟨h.1 (by decide), h.2 (by decide)⟩

lemma takeWhile_append_all {p : Char → Bool} : ∀ {r l : List Char},
    (∀ x ∈ r, p x = true) → (r ++ l).takeWhile p = r ++ l.takeWhile p := by
  intro r
  induction r with
  | nil => intro l _; rfl
  | cons a r ih =>
    intro l h
    rw [List.cons_append, List.takeWhile_cons_of_pos (h a (List.mem_cons_self a r)),
      ih (fun x hx => h x (List.mem_cons_of_mem a hx)), List.cons_append]

lemma dropWhile_append_all {p : Char → Bool} : ∀ {r l : List Char},
    (∀ x ∈ r, p x = true) → (r ++ l).dropWhile p = l.dropWhile p := by
  intro r
  induction r with
  | nil => intro l _; rfl
  | cons a r ih =>
    intro l h
    rw [List.cons_append, List.dropWhile_cons_of_pos (h a (List.mem_cons_self a r)),
      ih (fun x hx => h x (List.mem_cons_of_mem a hx))]

lemma spacetab_false_of_not_ws {b : Char} (h : isWs b = false) : spacetab b = false := by
  cases hsp : spacetab b
  · rfl
  · exfalso
    simp only [spacetab, decide_eq_true_eq] at hsp
    rcases hsp with h1 | h1 <;> subst h1 <;> exact absurd h (by decide)

lemma takeWhile_run {r l : List Char} (hr : ∀ x ∈ r, isWs x = true)
    (hl : ∀ d, l.head? = some d → isWs d = false) :
    (r ++ l).takeWhile isWs = r := by
  rw [takeWhile_append_all hr]
  cases l with
  | nil => simp
  | cons d t =>
    rw [List.takeWhile_cons_of_neg (by simp [hl d rfl])]
    simp

lemma tryMatch_flank {run : List Char} {b : Char} (hr : ∀ x ∈ run, isWs x = true)
    (hb : isWs b = false) (h2 : 2 ≤ run.length) :
    tryMatch (run ++ [b]) = some (run.length, b) := by
  have htw : (run ++ [b]).takeWhile isWs = run :=
    takeWhile_run hr (fun d hd => by
      have hbd : b = d := Option.some.inj hd
      rw [← hbd]; exact hb)
  unfold tryMatch
  rw [htw]
  rw [if_neg (by omega)]
  obtain ⟨k, hk⟩ : ∃ k, run.length = k + 2 := ⟨run.length - 2, by omega⟩
  have hget : (run ++ [b]).get? run.length = some b := by
    rw [List.get?_append_right (Nat.le_refl _)]
    simp
  rw [hk] at hget ⊢
  simp only [findBack]
  rw [hget]
  dsimp only
  rw [if_neg (by simp [spacetab_false_of_not_ws hb])]

lemma collapseLineFuel_nil : ∀ f, collapseLineFuel f [] = [] := by
  intro f; cases f <;> rfl

lemma collapse_flanked {a b : Char} {run : List Char} (ha1 : ¬ a = ' ') (ha2 : ¬ a = '\t')
    (hb : isWs b = false) (hr : ∀ x ∈ run, isWs x = true) (h2 : 2 ≤ run.length) :
    collapseLine (a :: (run ++ [b])) = [a, ' ', b] := by
  unfold collapseLine
  simp only [List.length_cons]
  simp only [collapseLineFuel]
  rw [if_neg (by simp [spacetab, ha1, ha2])]
  rw [tryMatch_flank hr hb h2]
  dsimp only
  rw [List.drop_of_length_le (by simp), collapseLineFuel_nil]

lemma collapseNlFuel_nil : ∀ f, collapseNlFuel f [] = [] := by
  intro f; cases f <;> rfl

lemma collapseNlFuel_adequate : ∀ (fuel f2 : Nat) (l : List Char),
    l.length ≤ fuel → l.length ≤ f2 → collapseNlFuel fuel l = collapseNlFuel f2 l := by
  intro fuel
  induction fuel with
  | zero =>
    intro f2 l h1 _
    have hl : l = [] := List.eq_nil_of_length_eq_zero (Nat.le_zero.mp h1)
    subst hl
    rw [collapseNlFuel_nil, collapseNlFuel_nil]
  | succ fuel ih =>
    intro f2 l h1 h2
    cases l with
    | nil => rw [collapseNlFuel_nil, collapseNlFuel_nil]
    | cons c rest =>
      obtain ⟨f2p, rfl⟩ : ∃ f2p, f2 = f2p + 1 :=
        ⟨f2 - 1, by simp only [List.length_cons] at h2; omega⟩
      simp only [collapseNlFuel]
      simp only [List.length_cons] at h1 h2
      have hld : ∀ k : Nat, (rest.drop k).length ≤ rest.length := by
        intro k; simp [List.length_drop]
      by_cases hc : c = '\n'
      · rw [if_pos hc, if_pos hc]
        by_cases hk : nlSkip (rest.takeWhile isWs) = 0
        · rw [if_pos hk, if_pos hk]
          exact congrArg _ (ih f2p rest (by omega) (by omega))
        · rw [if_neg hk, if_neg hk]
          refine congrArg _ (ih f2p _ ?_ ?_)
          · have := hld (nlSkip (rest.takeWhile isWs)); omega
          · have := hld (nlSkip (rest.takeWhile isWs)); omega
      · rw [if_neg hc, if_neg hc]
        exact congrArg _ (ih f2p rest (by omega) (by omega))

lemma nlSkip_replicate (m : Nat) : nlSkip (List.replicate m '\n') = m := by
  unfold nlSkip
  rw [List.reverse_replicate]
  cases m with
  | zero => rfl
  | succ m =>
    rw [List.replicate_succ, List.takeWhile_cons_of_neg (by decide)]
    simp

lemma newline_collapse : ∀ (n : Nat) (rest : List Char), 1 ≤ n →
    (∀ d, rest.head? = some d → isWs d = false) →
    collapseNewlines (List.replicate n '\n' ++ rest) = '\n' :: collapseNewlines rest := by
  intro n rest hn hrest
  obtain ⟨m, rfl⟩ : ∃ m, n = m + 1 := ⟨n - 1, by omega⟩
  rw [List.replicate_succ, List.cons_append]
  unfold collapseNewlines
  simp only [List.length_cons]
  simp only [collapseNlFuel]
  rw [if_pos trivial]
  have htw : (List.replicate m '\n' ++ rest).takeWhile isWs = List.replicate m '\n' :=
    takeWhile_run (fun x hx => by rw [List.eq_of_mem_replicate hx]; decide) hrest
  rw [htw, nlSkip_replicate]
  by_cases hm : m = 0
  · subst hm
    rw [if_pos rfl]
    simp [collapseNewlines]
  · rw [if_neg hm, List.drop_left' (by simp)]
    refine congrArg _ (collapseNlFuel_adequate _ _ rest ?_ (Nat.le_refl _))
    simp

lemma strip_space_end (l : List Char) :
    stripTrailingSpaces (l ++ [' ']) = stripTrailingSpaces l := by
  unfold stripTrailingSpaces
  have h1 : (l ++ [' ']).reverse = ' ' :: l.reverse := by simp
  rw [h1, List.dropWhile_cons_of_pos (by decide)]

lemma strip_keep_end {c : Char} (l : List Char) (hc : ¬ c = ' ') :
    stripTrailingSpaces (l ++ [c]) = l ++ [c] := by
  unfold stripTrailingSpaces
  have h1 : (l ++ [c]).reverse = c :: l.reverse := by simp
  rw [h1, List.dropWhile_cons_of_neg (by simp [hc])]
  simp

lemma trim_ends {r1 r2 l : List Char} {a b : Char} (hr1 : ∀ x ∈ r1, isWs x = true)
    (hr2 : ∀ x ∈ r2, isWs x = true) (ha : isWs a = false) (hb : isWs b = false) :
    trimBoth (r1 ++ (a :: (l ++ ([b] ++ r2)))) = a :: (l ++ [b]) := by
  unfold trimBoth
  rw [dropWhile_append_all hr1]
  rw [List.dropWhile_cons_of_neg (by simp [ha])]
  have hrev : (a :: (l ++ ([b] ++ r2))).reverse = r2.reverse ++ (b :: (l.reverse ++ [a])) := by
    simp [List.reverse_cons, List.reverse_append, List.append_assoc]
  rw [hrev]
  rw [dropWhile_append_all (fun x hx => hr2 x (List.mem_reverse.mp hx))]
  rw [List.dropWhile_cons_of_neg (by simp [hb])]
  simp

/-- Counterexample to claim C8 as stated.  The claim says interior runs are
collapsed only when they consist of plain spaces (never tabs) and that every
flanked run is collapsed.  The pass collapses the flanked tab run of
`a\t\tb` to one space, and on `a  b  c` collapses only the first double
space: the global regex resumes scanning after the consumed flank `b`, so the
second flanked run survives.  The last two conjuncts exhibit both behaviours
through `format` on string-literal inputs whose assembled text is exactly the
literal. -/
theorem C8_cleanup_pass_counterexample :
    cleanup (("a\t\tb").data) = ("a b").data ∧
    cleanup (("a  b  c").data) = ("a b  c").data ∧
    fmtStr ("\"a\t\tb\"") = "\"a b\"" ∧
    fmtStr ("\"a  b  c\"") = "\"a b  c\"" := by
  decide

/-- Claim C8, amended.  The cleanup pass strips trailing spaces from a line
while a trailing non-space character (a tab in particular) is preserved;
collapses an interior run of two or more whitespace characters — tabs
included — flanked by non-space, non-tab characters down to one space, in
leftmost non-overlapping fashion, so a flanked run whose left flank was
consumed by the previous collapse survives (the concrete `a  b  c` conjunct);
collapses a newline run into a single newline; and trims whitespace from both
ends of the whole result. -/
theorem C8_cleanup_pass_amended :
    (∀ l : List Char, stripTrailingSpaces (l ++ [' ']) = stripTrailingSpaces l) ∧
    (∀ (l : List Char) (c : Char), ¬ c = ' ' →
      stripTrailingSpaces (l ++ [c]) = l ++ [c]) ∧
    (∀ (a b : Char) (run : List Char), ¬ a = ' ' → ¬ a = '\t' → isWs b = false →
      (∀ x ∈ run, isWs x = true) → 2 ≤ run.length →
      collapseLine (a :: (run ++ [b])) = [a, ' ', b]) ∧
    collapseLine (("a  b  c").data) = ("a b  c").data ∧
    (∀ (n : Nat) (rest : List Char), 1 ≤ n →
      (∀ d, rest.head? = some d → isWs d = false) →
      collapseNewlines (List.replicate n '\n' ++ rest) = '\n' :: collapseNewlines rest) ∧
    (∀ (r1 r2 l : List Char) (a b : Char), (∀ x ∈ r1, isWs x = true) →
      (∀ x ∈ r2, isWs x = true) → isWs a = false → isWs b = false →
      trimBoth (r1 ++ (a :: (l ++ ([b] ++ r2)))) = a :: (l ++ [b])) :=
  ⟨strip_space_end, fun l c hc => strip_keep_end l hc,
   fun _ _ _ h1 h2 h3 h4 h5 => collapse_flanked h1 h2 h3 h4 h5,
   by decide,
   newline_collapse,
   fun _ _ _ _ _ h1 h2 h3 h4 => trim_ends h1 h2 h3 h4⟩

/-- Witness for the amended C8 at concrete inputs: a flanked tab run
collapses to one space, a double newline collapses to one, a surrounded word
is trimmed, and a trailing space is stripped. -/
theorem C8_cleanup_pass_amended_witness :
    collapseLine ('a' :: (['\t', '\t'] ++ ['b'])) = ['a', ' ', 'b'] ∧
    collapseNewlines (List.replicate 2 '\n' ++ []) = '\n' :: collapseNewlines [] ∧
    trimBoth ([' '] ++ ('a' :: (("b").data ++ (['c'] ++ ['\n'])))) =
      'a' :: (("b").data ++ ['c']) ∧
    stripTrailingSpaces (("x").data ++ [' ']) = stripTrailingSpaces (("x").data) := by
  refine ⟨?_, ?_, ?_, ?_⟩
  · exact C8_cleanup_pass_amended.2.2.1 'a' 'b' ['\t', '\t']
      (by decide) (by decide) (by decide) (by decide) (by decide)
  · exact C8_cleanup_pass_amended.2.2.2.2.1 2 [] (by decide)
      (fun d hd => Option.noConfusion hd)
  · exact C8_cleanup_pass_amended.2.2.2.2.2 [' '] ['\n'] (("b").data) 'a' 'c'
      (by decide) (by decide) (by decide) (by decide)
  · exact C8_cleanup_pass_amended.1 (("x").data)

end AirtableSpec
